import Mathlib

/-!
Verification of the VRPTW-C pricing subproblem solver (`src/rust pricing`).

Shallow embedding conventions:
* `f64` values (costs, capacities, coordinates) are modelled as `ℚ`;
  `chrono::DateTime<Utc>` instants and `TimeDelta` durations as `Int`
  (minutes on the UTC timeline), matching the code's integer-minute
  arithmetic (`TimeDelta::minutes((60.0 * d / speed) as i64)`).
* Node identifiers `"W_<id>"` / `"C_<id>"` become the tagged type `NodeId`;
  the Rust prefix tests `starts_with("W_")` / `starts_with("C_")` become
  `NodeId.isWarehouse` / `NodeId.isCustomer`.
* Rust `HashMap` iteration order is fixed per constructed map within one
  process; it is modelled by the insertion-order lists stored in
  `PricingProblem`.  petgraph's `Graph::edges(n)` yields outgoing edges in
  reverse order of insertion, modelled by `PricingProblem.outEdges`;
  `edges_connecting(u,v).next()` yields the most recently inserted u→v
  edge, modelled by `PricingProblem.firstEdge`.
* The external trip-cost calculator (temporary file, subprocess, JSON
  parse) is abstracted as a function `exec : OraclePayload → Except String ℚ`
  covering every failure mode (I/O error, non-zero exit, unparseable
  output, missing `total_cost`).  `chrono`'s RFC3339 parser is abstracted
  as `parse : String → Option Int`; the `.expect(...)` panic in
  `find_negative_path` is modelled by `Except.error`.
* The per-warehouse `while let Some(...) = queue.pop_front()` loop is run
  with an explicit fuel parameter bounding the number of pops; all safety
  theorems hold for every fuel, and concrete runs use visibly sufficient
  fuel.
-/

namespace VRPPricing

/-- Node identifier: `W_<id>` or `C_<id>` (models the string convention of
`pricing.rs`; the two-character prefix tests become constructor tests). -/
inductive NodeId where
  | wh (i : Int)
  | cust (i : Int)
deriving DecidableEq, Repr

/-- `starts_with("W_")`. -/
def NodeId.isWarehouse : NodeId → Bool
  | .wh _ => true
  | .cust _ => false

/-- `starts_with("C_")`. -/
def NodeId.isCustomer : NodeId → Bool
  | .wh _ => false
  | .cust _ => true

/-- `models.rs` `Customer`; windows are UTC instants in minutes. -/
structure Customer where
  id : Int
  lat : ℚ
  lng : ℚ
  capacity : ℚ
  window_start : Int
  window_end : Int
deriving DecidableEq, Repr

/-- `models.rs` `Warehouse`. -/
structure Warehouse where
  id : Int
  lat : ℚ
  lng : ℚ
deriving DecidableEq, Repr

/-- `models.rs` `PenaltyParams`. -/
structure PenaltyParams where
  waiting_per_minute : ℚ
  late_arrival_per_minute : ℚ
  late_service_per_minute : ℚ
deriving DecidableEq, Repr

/-- `models.rs` `EdgeData`: cost, travel time (whole minutes), reduced cost. -/
structure EdgeData where
  cost : ℚ
  travel_time : Int
  reduced_cost : ℚ
deriving DecidableEq, Repr

/-- One directed arc of the petgraph `DiGraph<String, EdgeData>`. -/
structure Edge where
  src : NodeId
  dst : NodeId
  data : EdgeData
deriving DecidableEq, Repr

/-- `models.rs` `PathResult`. -/
structure PathResult where
  path : List NodeId
  reduced_cost : ℚ
  cost : ℚ
  capacity : ℚ
deriving DecidableEq, Repr

/-- `pricing.rs` `PricingProblem`.  `edges` lists arcs in insertion order;
`customers` / `warehouses` are the two `HashMap`s as insertion-order
association lists (`node_indices` is the identity on `NodeId` here, since
petgraph node indices are in bijection with node names by construction). -/
structure PricingProblem where
  edges : List Edge
  customers : List (NodeId × Customer)
  warehouses : List (NodeId × Warehouse)
  max_stops : Nat
  max_capacity : ℚ
  cost_per_km : ℚ
  speed_kmh : ℚ
  service_time : Int
  planning_date : String
  departure_hour : Nat
  allow_violate_time_window : Bool
  penalties : PenaltyParams

/-- Fallback for map lookups that cannot fail on graphs built by
`PricingProblem.new` (in Rust, `self.customers[node]` would panic). -/
def defaultCustomer : Customer := ⟨0, 0, 0, 0, 0, 0⟩

/-- `&self.customers[node]` (every `C_` node of a built graph is present). -/
def PricingProblem.findCustomer (p : PricingProblem) (n : NodeId) : Customer :=
  ((p.customers.find? (fun kv => kv.1 == n)).map Prod.snd).getD defaultCustomer

/-- `self.graph.edges(n)`: outgoing arcs, most recently inserted first. -/
def PricingProblem.outEdges (p : PricingProblem) (n : NodeId) : List Edge :=
  (p.edges.filter (fun e => e.src == n)).reverse

/-- `self.graph.edges_connecting(u, v).next()`: the most recently inserted
u→v arc, if any. -/
def PricingProblem.firstEdge (p : PricingProblem) (u v : NodeId) : Option Edge :=
  p.edges.reverse.find? (fun e => e.src == u && e.dst == v)

/-- A search label `(cost, time, capacity, path)` as in `find_negative_path`. -/
structure Label where
  cost : ℚ
  time : Int
  cap : ℚ
  path : List NodeId
deriving DecidableEq, Repr

/-- The mutable state of `find_negative_path`: per-node retained labels,
the FIFO frontier, and the write-once-per-improvement best record
(`best_path`, `best_reduced_cost`). -/
structure SearchState where
  labels : NodeId → List Label
  queue : List Label
  best : Option PathResult
  bestRC : ℚ

/-- `is_dominated` (`pricing.rs` lines 410-423): the proposed
`(cost, time, capacity)` is weakly dominated by some retained label. -/
def is_dominated (labels : NodeId → List Label) (node : NodeId)
    (cost : ℚ) (time : Int) (capacity : ℚ) : Bool :=
  (labels node).any (fun l =>
    decide (l.cost ≤ cost) && decide (l.time ≤ time) && decide (l.cap ≤ capacity))

/-- Number of `C_` nodes in a path (`current_path.iter().filter(...).count()`). -/
def customerCount (path : List NodeId) : Nat :=
  (path.filter (fun n => n.isCustomer)).length

/-- `current_path.last().unwrap()` (paths on the frontier are nonempty). -/
def lastNode (path : List NodeId) : NodeId :=
  (path.getLast?).getD (NodeId.wh 0)

/-- `get_edge_distance`: arc cost divided by `cost_per_km`, or `f64::INFINITY`
(modelled as `⊤ : WithTop ℚ`) when no arc connects the pair. -/
def get_edge_distance (p : PricingProblem) (u v : NodeId) : WithTop ℚ :=
  match p.firstEdge u v with
  | some e => ((e.data.cost / p.cost_per_km : ℚ) : WithTop ℚ)
  | none => ⊤

/-- `calculate_path_distance`: start → customers… → end, summing
`get_edge_distance` along the way. -/
def calculate_path_distance (p : PricingProblem) (start : NodeId)
    (customers : List NodeId) (stop : NodeId) : WithTop ℚ :=
  let acc := customers.foldl
    (fun (a : WithTop ℚ × NodeId) n => (a.1 + get_edge_distance p a.2 n, n))
    ((0 : WithTop ℚ), start)
  acc.1 + get_edge_distance p acc.2 stop

/-- `new_path[i..=j].reverse()` on a vector: reverse the inclusive segment. -/
def reverseSegment (l : List NodeId) (i j : Nat) : List NodeId :=
  l.take i ++ ((l.drop i).take (j + 1 - i)).reverse ++ l.drop (j + 1)

/-- The 2-opt index pairs `(i, j)` with `i ∈ 0..n-1`, `j ∈ i+1..n`, in loop
order. -/
def sweepPairs (n : Nat) : List (Nat × Nat) :=
  (List.range (n - 1)).flatMap
    (fun i => ((List.range n).filter (fun j => decide (i < j))).map (fun j => (i, j)))

/-- One full sweep of the nested `for i … for j` loops: adopt each strictly
improving reversal immediately and remember whether any was adopted. -/
def twoOptSweep (d : List NodeId → WithTop ℚ) (best : List NodeId) :
    List NodeId × Bool :=
  (sweepPairs best.length).foldl
    (fun acc ij =>
      let np := reverseSegment acc.1 ij.1 ij.2
      if d np < d acc.1 then (np, true) else acc)
    (best, false)

lemma reverseSegment_perm (l : List NodeId) (i j : Nat) (hij : i ≤ j + 1) :
    (reverseSegment l i j).Perm l := by
  unfold reverseSegment
  have hdrop : (l.drop i).drop (j + 1 - i) = l.drop (j + 1) := by
    rw [List.drop_drop]
    congr 1
    omega
  rw [List.append_assoc]
  refine List.Perm.trans
    (List.Perm.append_left _ (List.Perm.append_right _ (List.reverse_perm _))) ?_
  rw [← hdrop, List.take_append_drop, List.take_append_drop]

lemma sweepPairs_le (n : Nat) : ∀ ij ∈ sweepPairs n, ij.1 ≤ ij.2 + 1 := by
  intro ij hij
  unfold sweepPairs at hij
  rw [List.mem_flatMap] at hij
  obtain ⟨i, _, hmem⟩ := hij
  rw [List.mem_map] at hmem
  obtain ⟨j, hj, rfl⟩ := hmem
  rw [List.mem_filter] at hj
  have : i < j := of_decide_eq_true hj.2
  omega

lemma twoOptSweep_fold_spec (d : List NodeId → WithTop ℚ) (l0 : List NodeId) :
    ∀ (ps : List (Nat × Nat)) (acc : List NodeId × Bool),
      (∀ ij ∈ ps, ij.1 ≤ ij.2 + 1) →
      acc.1.Perm l0 → d acc.1 ≤ d l0 → (acc.2 = true → d acc.1 < d l0) →
      (ps.foldl
        (fun acc ij =>
          let np := reverseSegment acc.1 ij.1 ij.2
          if d np < d acc.1 then (np, true) else acc) acc).1.Perm l0 ∧
      d (ps.foldl
        (fun acc ij =>
          let np := reverseSegment acc.1 ij.1 ij.2
          if d np < d acc.1 then (np, true) else acc) acc).1 ≤ d l0 ∧
      ((ps.foldl
        (fun acc ij =>
          let np := reverseSegment acc.1 ij.1 ij.2
          if d np < d acc.1 then (np, true) else acc) acc).2 = true →
        d (ps.foldl
          (fun acc ij =>
            let np := reverseSegment acc.1 ij.1 ij.2
            if d np < d acc.1 then (np, true) else acc) acc).1 < d l0) := by
  intro ps
  induction ps with
  | nil => intro acc _ h1 h2 h3; exact ⟨h1, h2, h3⟩
  | cons ij rest ih =>
    intro acc hps h1 h2 h3
    simp only [List.foldl_cons]
    by_cases hlt : d (reverseSegment acc.1 ij.1 ij.2) < d acc.1
    · have hperm : (reverseSegment acc.1 ij.1 ij.2).Perm l0 :=
        (reverseSegment_perm acc.1 ij.1 ij.2 (hps ij (by simp))).trans h1
      have hd : d (reverseSegment acc.1 ij.1 ij.2) < d l0 := lt_of_lt_of_le hlt h2
      have := ih (reverseSegment acc.1 ij.1 ij.2, true)
        (fun x hx => hps x (List.mem_cons_of_mem _ hx)) hperm (le_of_lt hd)
        (fun _ => hd)
      simpa [hlt] using this
    · have := ih acc (fun x hx => hps x (List.mem_cons_of_mem _ hx)) h1 h2 h3
      simpa [hlt] using this

lemma twoOptSweep_spec (d : List NodeId → WithTop ℚ) (l : List NodeId) :
    (twoOptSweep d l).1.Perm l ∧ d (twoOptSweep d l).1 ≤ d l ∧
      ((twoOptSweep d l).2 = true → d (twoOptSweep d l).1 < d l) := by
  unfold twoOptSweep
  exact twoOptSweep_fold_spec d l (sweepPairs l.length) (l, false)
    (sweepPairs_le l.length) (List.Perm.refl l) (le_refl _) (by simp)

/-- Termination measure for the `while improved` loop: how many permutations
of the current interior have strictly smaller route distance. -/
def twoOptMeasure (d : List NodeId → WithTop ℚ) (b : List NodeId) : Nat :=
  ((b.permutations).filter (fun π => decide (d π < d b))).length

lemma length_filter_le_mono {α : Type} (q q' : α → Bool) :
    ∀ (L : List α), (∀ x ∈ L, q x = true → q' x = true) →
      (L.filter q).length ≤ (L.filter q').length := by
  intro L
  induction L with
  | nil => intro _; simp
  | cons a L ih =>
    intro h
    have hL := ih (fun x hx => h x (List.mem_cons_of_mem _ hx))
    by_cases ha : q a = true
    · have ha' : q' a = true := h a (by simp) ha
      simp [List.filter_cons, ha, ha']
      omega
    · rw [Bool.not_eq_true] at ha
      by_cases ha' : q' a = true
      · simp [List.filter_cons, ha, ha']
        omega
      · rw [Bool.not_eq_true] at ha'
        simp [List.filter_cons, ha, ha']
        omega

lemma length_filter_lt_strict {α : Type} (q q' : α → Bool) :
    ∀ (L : List α), (∀ x ∈ L, q x = true → q' x = true) →
      ∀ x ∈ L, q' x = true → q x = false →
      (L.filter q).length < (L.filter q').length := by
  intro L
  induction L with
  | nil => intro _ x hx; exact absurd hx (List.not_mem_nil x)
  | cons a L ih =>
    intro h x hx hq' hq
    rcases List.mem_cons.mp hx with rfl | hxL
    · have hle := length_filter_le_mono q q' L
        (fun y hy => h y (List.mem_cons_of_mem _ hy))
      simp [List.filter_cons, hq, hq']
      omega
    · have hlt := ih (fun y hy => h y (List.mem_cons_of_mem _ hy)) x hxL hq' hq
      by_cases ha : q a = true
      · have ha' : q' a = true := h a (by simp) ha
        simp [List.filter_cons, ha, ha']
        omega
      · rw [Bool.not_eq_true] at ha
        by_cases ha' : q' a = true
        · simp [List.filter_cons, ha, ha']
          omega
        · rw [Bool.not_eq_true] at ha'
          simp [List.filter_cons, ha, ha']
          omega

lemma twoOptMeasure_lt (d : List NodeId → WithTop ℚ) {b b' : List NodeId}
    (hperm : b'.Perm b) (hlt : d b' < d b) :
    twoOptMeasure d b' < twoOptMeasure d b := by
  unfold twoOptMeasure
  have hpp : (b'.permutations).Perm (b.permutations) := hperm.permutations
  have heq : ((b'.permutations).filter (fun π => decide (d π < d b'))).length =
      ((b.permutations).filter (fun π => decide (d π < d b'))).length :=
    (hpp.filter _).length_eq
  rw [heq]
  exact length_filter_lt_strict _ _ (b.permutations)
    (fun x _ hx =>
      decide_eq_true (lt_of_lt_of_le (of_decide_eq_true hx) (le_of_lt hlt)))
    b' (List.mem_permutations.mpr hperm) (decide_eq_true hlt)
    (decide_eq_false (lt_irrefl _))

/-- The `while improved { … }` 2-opt loop of `optimize_path_order`
(`pricing.rs` lines 359-379).  Terminates because each improving sweep
strictly shrinks `twoOptMeasure`. -/
def twoOptLoop (d : List NodeId → WithTop ℚ) (best : List NodeId) :
    List NodeId :=
  let r := twoOptSweep d best
  if h : r.2 = true then twoOptLoop d r.1 else r.1
termination_by twoOptMeasure d best
decreasing_by
  exact twoOptMeasure_lt d (twoOptSweep_spec d best).1
    ((twoOptSweep_spec d best).2.2 h)

/-- `optimize_path_order` (`pricing.rs` lines 348-386). -/
def optimize_path_order (p : PricingProblem) (path : List NodeId) :
    List NodeId :=
  if path.length ≤ 2 then path
  else
    let customers := (path.drop 1).take (path.length - 2)
    let start_wh := path.headD (NodeId.wh 0)
    let end_wh := (path.getLast?).getD (NodeId.wh 0)
    let best := twoOptLoop
      (fun cs => calculate_path_distance p start_wh cs end_wh) customers
    start_wh :: (best ++ [end_wh])

/-- One entry of the `locations` array of the oracle payload
(`all_locations`): warehouses carry id/lat/lng, customers additionally
windows and capacity. -/
inductive LocationJson where
  | wh (id : NodeId) (lat lng : ℚ)
  | cust (id : NodeId) (lat lng : ℚ) (window_start window_end : Int)
      (capacity : ℚ)
deriving DecidableEq, Repr

/-- `all_locations` (`pricing.rs` lines 131-156): warehouses then customers,
in map iteration order. -/
def PricingProblem.all_locations (p : PricingProblem) : List LocationJson :=
  (p.warehouses.map (fun kv => LocationJson.wh kv.1 kv.2.lat kv.2.lng)) ++
  (p.customers.map (fun kv =>
    LocationJson.cust kv.1 kv.2.lat kv.2.lng kv.2.window_start
      kv.2.window_end kv.2.capacity))

/-- The JSON object written for the trip-cost calculator
(`calculate_with_executable`, `pricing.rs` lines 90-101), field for field. -/
structure OraclePayload where
  locations : List LocationJson
  path : List NodeId
  departure : Int
  cost_per_km : ℚ
  speed_kmh : ℚ
  service_minutes : Int
  max_capacity : ℚ
  max_stops : Nat
  allow_violate_time_window : Bool
  penalties : PenaltyParams
deriving Repr

/-- The payload constructed by `calculate_with_executable`.  Note that the
source hard-codes `"allow_violate_time_window": false`
(`pricing.rs` line 99, comment `// Default to false for safety`) instead of
forwarding `self.allow_violate_time_window`. -/
def mkOraclePayload (p : PricingProblem) (path : List NodeId)
    (departure : Int) : OraclePayload :=
  { locations := p.all_locations
    path := path
    departure := departure
    cost_per_km := p.cost_per_km
    speed_kmh := p.speed_kmh
    service_minutes := p.service_time
    max_capacity := p.max_capacity
    max_stops := p.max_stops
    allow_violate_time_window := false
    penalties := p.penalties }

/-- `calculate_with_executable` with the subprocess abstracted by `exec`
(any temp-file, exit-status, parse or missing-`total_cost` failure is an
`Except.error`). -/
def calculate_with_executable (exec : OraclePayload → Except String ℚ)
    (p : PricingProblem) (path : List NodeId) (departure : Int) :
    Except String ℚ :=
  exec (mkOraclePayload p path departure)

/-- The feasibility block of the extension step (`pricing.rs` lines
277-300): arrival time (with waiting clamped to `window_start`), window and
service checks, capacity accumulation.  Returns the label's new
`(time, capacity)` or `none` for an infeasible extension. -/
def feasibleExtend (p : PricingProblem) (l : Label) (e : Edge) :
    Option (Int × ℚ) :=
  let arrival0 := l.time + e.data.travel_time
  match e.dst with
  | .wh _ => some (arrival0, l.cap)
  | .cust _ =>
    let cust := p.findCustomer e.dst
    let arrival := max arrival0 cust.window_start
    if cust.window_end < arrival then none
    else if cust.window_end < arrival + p.service_time then none
    else if p.max_capacity < l.cap + cust.capacity then none
    else some (arrival + p.service_time, l.cap + cust.capacity)

/-- The candidate actually sent to the oracle on closure: 2-opt refined only
when time-window violations are permitted (`pricing.rs` lines 311-315). -/
def closureCandidate (p : PricingProblem) (path : List NodeId) :
    List NodeId :=
  if p.allow_violate_time_window then optimize_path_order p path else path

/-- The body of the `for edge in self.graph.edges(last_idx)` loop
(`pricing.rs` lines 254-341) processing one outgoing arc `e` of the popped
label `l`. -/
def processEdge (exec : OraclePayload → Except String ℚ)
    (p : PricingProblem) (start_wh : NodeId) (departure : Int) (l : Label)
    (st : SearchState) (e : Edge) : SearchState :=
  if e.dst.isWarehouse = true ∧ e.dst ≠ start_wh then st
  else if e.dst.isCustomer = true ∧
      (p.max_stops ≤ customerCount l.path ∨ e.dst ∈ l.path) then st
  else
    match feasibleExtend p l e with
    | none => st
    | some (arrival_time, new_cap) =>
      let new_cost := l.cost + e.data.reduced_cost
      let new_path := l.path ++ [e.dst]
      if e.dst = start_wh ∧ 1 ≤ customerCount l.path then
        if new_cost < st.bestRC then
          match calculate_with_executable exec p
              (closureCandidate p new_path) departure with
          | .ok total_cost =>
            { st with
              best := some ⟨closureCandidate p new_path, new_cost,
                total_cost, new_cap⟩
              bestRC := new_cost }
          | .error _ => st
        else st
      else
        if is_dominated st.labels e.dst new_cost arrival_time new_cap then st
        else
          { st with
            labels := fun n =>
              if n = e.dst then
                st.labels n ++ [⟨new_cost, arrival_time, new_cap, new_path⟩]
              else st.labels n
            queue :=
              st.queue ++ [⟨new_cost, arrival_time, new_cap, new_path⟩] }

/-- The `while let Some(...) = queue.pop_front()` loop for one starting
warehouse, with fuel bounding the number of pops. -/
def runQueue (exec : OraclePayload → Except String ℚ) (p : PricingProblem)
    (start_wh : NodeId) (departure : Int) :
    Nat → SearchState → SearchState
  | 0, st => st
  | Nat.succ fuel, st =>
    match st.queue with
    | [] => st
    | l :: rest =>
      let st1 : SearchState := { st with queue := rest }
      let st2 := (p.outEdges (lastNode l.path)).foldl
        (processEdge exec p start_wh departure l) st1
      runQueue exec p start_wh departure fuel st2

/-- The initial label of a warehouse session (`pricing.rs` lines 244-248). -/
def initLabel (start_wh : NodeId) (departure : Int) : Label :=
  ⟨0, departure, 0, [start_wh]⟩

/-- Fresh labels map and frontier for one warehouse, carrying the global
best record across sessions. -/
def initState (start_wh : NodeId) (departure : Int)
    (best : Option PathResult) (bestRC : ℚ) : SearchState :=
  { labels := fun n =>
      if n = start_wh then [initLabel start_wh departure] else []
    queue := [initLabel start_wh departure]
    best := best
    bestRC := bestRC }

/-- `format!("{:02}", h)`. -/
def pad2 (n : Nat) : String :=
  if n < 10 then "0" ++ toString n else toString n

/-- The RFC3339 string handed to `DateTime::parse_from_rfc3339`
(`pricing.rs` lines 240-242). -/
def departureString (p : PricingProblem) : String :=
  p.planning_date ++ "T" ++ pad2 p.departure_hour ++ ":00:00+06:00"

/-- The `for start_wh in self.warehouses.keys()` loop.  A failed RFC3339
parse models the `.expect("Invalid planning date format")` panic as
`Except.error`. -/
def runWarehouses (parse : String → Option Int)
    (exec : OraclePayload → Except String ℚ) (fuel : Nat)
    (p : PricingProblem) :
    List NodeId → Option PathResult × ℚ →
      Except String (Option PathResult × ℚ)
  | [], acc => .ok acc
  | w :: ws, acc =>
    match parse (departureString p) with
    | none => .error "Invalid planning date format"
    | some departure =>
      let stF := runQueue exec p w departure fuel
        (initState w departure acc.1 acc.2)
      runWarehouses parse exec fuel p ws (stF.best, stF.bestRC)

/-- `find_negative_path` (`pricing.rs` lines 234-346). -/
def find_negative_path (parse : String → Option Int)
    (exec : OraclePayload → Except String ℚ) (fuel : Nat)
    (p : PricingProblem) : Except String (Option PathResult) :=
  (runWarehouses parse exec fuel p (p.warehouses.map Prod.fst)
    (none, 0)).map Prod.fst

/-- `(x) as i64` truncation toward zero of a rational. -/
def truncToMinutes (x : ℚ) : Int :=
  Int.tdiv x.num (Int.ofNat x.den)

/-- `add_edge` (`pricing.rs` lines 195-222), parametric in the haversine
distance `hav` (real trigonometry, abstracted as a rational-valued oracle
on coordinate pairs) and the dual lookup `dual` (already including the
`unwrap_or(&0.0)` default; keyed by the numeric customer id, the textual
suffix of `C_<id>`). -/
def mkEdge (hav : ℚ × ℚ → ℚ × ℚ → ℚ) (dual : Int → ℚ)
    (cost_per_km speed_kmh : ℚ) (coords : NodeId → ℚ × ℚ)
    (u v : NodeId) : Edge :=
  let distance_km := hav (coords u) (coords v)
  let cost := cost_per_km * distance_km
  let travel_time := truncToMinutes (60 * distance_km / speed_kmh)
  let reduced_cost :=
    match v with
    | .cust i => cost - dual i
    | .wh _ => cost
  ⟨u, v, ⟨cost, travel_time, reduced_cost⟩⟩

/-- `PricingProblem::new` together with `build_edges` (`pricing.rs` lines
32-86 and 172-193): warehouse↔customer arcs in both directions, then arcs
between every ordered pair of distinct customers.  Map iteration order is
the insertion order of the input lists; ids are assumed distinct within
each list (duplicate ids would be collapsed by the Rust `HashMap`s). -/
def PricingProblem.new (hav : ℚ × ℚ → ℚ × ℚ → ℚ)
    (customers : List Customer) (warehouses : List Warehouse)
    (dual : Int → ℚ) (max_stops : Nat)
    (max_capacity cost_per_km speed_kmh : ℚ) (service_time : Int)
    (planning_date : String) (departure_hour : Nat)
    (allow_violate_time_window : Bool) (penalties : PenaltyParams) :
    PricingProblem :=
  let whKV := warehouses.map (fun w => (NodeId.wh w.id, w))
  let custKV := customers.map (fun c => (NodeId.cust c.id, c))
  let coords : NodeId → ℚ × ℚ := fun n =>
    match n with
    | .wh _ =>
      (((whKV.find? (fun kv => kv.1 == n)).map
        (fun kv => (kv.2.lat, kv.2.lng))).getD (0, 0))
    | .cust _ =>
      (((custKV.find? (fun kv => kv.1 == n)).map
        (fun kv => (kv.2.lat, kv.2.lng))).getD (0, 0))
  let whNodes := whKV.map Prod.fst
  let custNodes := custKV.map Prod.fst
  let mk := mkEdge hav dual cost_per_km speed_kmh coords
  let wcEdges := whNodes.flatMap
    (fun w => custNodes.flatMap (fun c => [mk w c, mk c w]))
  let ccEdges := custNodes.flatMap
    (fun c1 => (custNodes.filter (fun c2 => c2 ≠ c1)).map (fun c2 => mk c1 c2))
  { edges := wcEdges ++ ccEdges
    customers := custKV
    warehouses := whKV
    max_stops := max_stops
    max_capacity := max_capacity
    cost_per_km := cost_per_km
    speed_kmh := speed_kmh
    service_time := service_time
    planning_date := planning_date
    departure_hour := departure_hour
    allow_violate_time_window := allow_violate_time_window
    penalties := penalties }

/-- One step of the reference time simulation over a reported path: travel
along the (unique) u→v arc, wait to `window_start` on early arrival at a
customer, check `arrival ≤ window_end` and
`arrival + service_time ≤ window_end`, and spend the service time.  This is
exactly the per-arc timing discipline of the label extension. -/
def simStep (p : PricingProblem) (t : Int) (u v : NodeId) : Option Int :=
  match p.firstEdge u v with
  | none => none
  | some e =>
    let arr := t + e.data.travel_time
    match v with
    | .wh _ => some arr
    | .cust _ =>
      let c := p.findCustomer v
      let a := max arr c.window_start
      if c.window_end < a then none
      else if c.window_end < a + p.service_time then none
      else some (a + p.service_time)

/-- Simulate a path from the departure instant; `some t` is the instant at
which the vehicle is free at the last node, `none` means some customer's
time window was violated (or an arc was missing). -/
def simulate (p : PricingProblem) (dep : Int) : List NodeId → Option Int
  | [] => none
  | [_] => some dep
  | u :: v :: rest => (simStep p dep u v).bind (fun t => simulate p t (v :: rest))

/-- Total demand of the customers of a path (each occurrence counted). -/
def demandSum (p : PricingProblem) (path : List NodeId) : ℚ :=
  ((path.filter (fun n => n.isCustomer)).map
    (fun n => (p.findCustomer n).capacity)).sum

/-- Sum of the reduced costs of the (unique) arcs along a path — the
quantity the spec calls "the summed arc reduced cost of the path field". -/
def pathReducedCost (p : PricingProblem) (path : List NodeId) : ℚ :=
  ((path.zip path.tail).map
    (fun uv =>
      match p.firstEdge uv.1 uv.2 with
      | some e => e.data.reduced_cost
      | none => 0)).sum

/-- Well-formedness of a built graph: no warehouse→warehouse arcs (and so
no warehouse self-loops), and at most one arc per ordered node pair — both
guaranteed by `build_edges` for distinct input ids. -/
def GraphWF (p : PricingProblem) : Prop :=
  (∀ e ∈ p.edges, e.src.isWarehouse = true → e.dst.isCustomer = true) ∧
  (∀ e ∈ p.edges, ∀ e2 ∈ p.edges, e.src = e2.src → e.dst = e2.dst → e = e2)

lemma isCustomer_eq_false_iff (n : NodeId) :
    n.isCustomer = false ↔ n.isWarehouse = true := by
  cases n <;> simp [NodeId.isCustomer, NodeId.isWarehouse]

lemma isWarehouse_eq_false_iff (n : NodeId) :
    n.isWarehouse = false ↔ n.isCustomer = true := by
  cases n <;> simp [NodeId.isCustomer, NodeId.isWarehouse]

lemma exists_wh_of_isWarehouse {n : NodeId} (h : n.isWarehouse = true) :
    ∃ i, n = NodeId.wh i := by
  cases n with
  | wh i => exact ⟨i, rfl⟩
  | cust i => simp [NodeId.isWarehouse] at h

lemma firstEdge_eq {p : PricingProblem} (hwf : GraphWF p) {e : Edge}
    (he : e ∈ p.edges) : p.firstEdge e.src e.dst = some e := by
  unfold PricingProblem.firstEdge
  cases hfind : p.edges.reverse.find?
      (fun e2 => e2.src == e.src && e2.dst == e.dst) with
  | none =>
    have := List.find?_eq_none.mp hfind e (List.mem_reverse.mpr he)
    simp at this
  | some e2 =>
    have hmem : e2 ∈ p.edges :=
      List.mem_reverse.mp (List.mem_of_find?_eq_some hfind)
    have hpred := List.find?_some hfind
    simp only [Bool.and_eq_true, beq_iff_eq] at hpred
    rw [hwf.2 e2 hmem e he hpred.1 hpred.2]

lemma outEdges_mem {p : PricingProblem} {n : NodeId} {e : Edge}
    (h : e ∈ p.outEdges n) : e ∈ p.edges ∧ e.src = n := by
  unfold PricingProblem.outEdges at h
  rw [List.mem_reverse, List.mem_filter] at h
  exact ⟨h.1, by simpa using h.2⟩

lemma lastNode_append (path : List NodeId) (v : NodeId) :
    lastNode (path ++ [v]) = v := by
  unfold lastNode
  rw [List.getLast?_concat]
  rfl

lemma lastNode_cons_cons (u w : NodeId) (rest : List NodeId) :
    lastNode (u :: w :: rest) = lastNode (w :: rest) := by
  unfold lastNode
  rw [List.getLast?_cons_cons]

lemma simulate_append (p : PricingProblem) (v : NodeId) :
    ∀ (path : List NodeId) (dep : Int), path ≠ [] →
      simulate p dep (path ++ [v]) =
        (simulate p dep path).bind (fun t => simStep p t (lastNode path) v) := by
  intro path
  induction path with
  | nil => intro dep h; exact absurd rfl h
  | cons u rest ih =>
    intro dep _
    cases rest with
    | nil =>
      have hl : lastNode [u] = u := rfl
      rw [hl]
      simp only [List.cons_append, List.nil_append, simulate, Option.some_bind]
      cases h : simStep p dep u v <;> simp [h]
    | cons w rest2 =>
      have hne : (w :: rest2 : List NodeId) ≠ [] := by simp
      simp only [List.cons_append, simulate]
      rw [lastNode_cons_cons]
      cases hstep : simStep p dep u w with
      | none => rfl
      | some t => simpa using ih t hne

lemma demandSum_append (p : PricingProblem) (path : List NodeId)
    (v : NodeId) :
    demandSum p (path ++ [v]) =
      demandSum p path +
        (if v.isCustomer then (p.findCustomer v).capacity else 0) := by
  unfold demandSum
  rw [List.filter_append]
  by_cases h : v.isCustomer = true
  · simp [h]
  · rw [Bool.not_eq_true] at h
    simp [h]

lemma demandSum_perm (p : PricingProblem) {l1 l2 : List NodeId}
    (h : l1.Perm l2) : demandSum p l1 = demandSum p l2 :=
  List.Perm.sum_eq (List.Perm.map _ (List.Perm.filter _ h))

lemma customerCount_append (path : List NodeId) (v : NodeId) :
    customerCount (path ++ [v]) =
      customerCount path + (if v.isCustomer then 1 else 0) := by
  unfold customerCount
  rw [List.filter_append]
  by_cases h : v.isCustomer = true
  · simp [h]
  · rw [Bool.not_eq_true] at h
    simp [h]

lemma customerCount_shape {w : NodeId} {tail : List NodeId}
    (hw : w.isWarehouse = true) (ht : ∀ n ∈ tail, n.isCustomer = true) :
    customerCount (w :: tail) = tail.length := by
  unfold customerCount
  rw [List.filter_cons_of_neg, List.filter_eq_self.mpr ht]
  simp [(isCustomer_eq_false_iff w).mpr hw]

lemma feasibleExtend_wh {p : PricingProblem} {l : Label} {e : Edge} {i : Int}
    (h : e.dst = NodeId.wh i) :
    feasibleExtend p l e = some (l.time + e.data.travel_time, l.cap) := by
  unfold feasibleExtend
  rw [h]

lemma feasibleExtend_cust_cap {p : PricingProblem} {l : Label} {e : Edge}
    {j : Int} {t' : Int} {c' : ℚ} (h : e.dst = NodeId.cust j)
    (hfe : feasibleExtend p l e = some (t', c')) :
    c' = l.cap + (p.findCustomer e.dst).capacity := by
  unfold feasibleExtend at hfe
  rw [h] at hfe
  dsimp only at hfe
  split_ifs at hfe with h1 h2 h3
  rw [h]
  exact (congrArg Prod.snd (Option.some.inj hfe)).symm

lemma simStep_of_feasibleExtend {p : PricingProblem} {l : Label} {e : Edge}
    {t' : Int} {c' : ℚ} (hwf : GraphWF p) (he : e ∈ p.edges)
    (hfe : feasibleExtend p l e = some (t', c')) :
    simStep p l.time e.src e.dst = some t' := by
  unfold simStep
  rw [firstEdge_eq hwf he]
  cases hdst : e.dst with
  | wh i =>
    unfold feasibleExtend at hfe
    rw [hdst] at hfe
    dsimp only at hfe
    dsimp only
    exact congrArg some (congrArg Prod.fst (Option.some.inj hfe))
  | cust j =>
    unfold feasibleExtend at hfe
    rw [hdst] at hfe
    dsimp only at hfe
    split_ifs at hfe with h1 h2 h3
    dsimp only
    rw [if_neg h1, if_neg h2]
    exact congrArg some (congrArg Prod.fst (Option.some.inj hfe))

lemma twoOptLoop_spec (d : List NodeId → WithTop ℚ) :
    ∀ (n : Nat) (b : List NodeId), twoOptMeasure d b ≤ n →
      (twoOptLoop d b).Perm b ∧ d (twoOptLoop d b) ≤ d b := by
  intro n
  induction n with
  | zero =>
    intro b hb
    rw [twoOptLoop]
    by_cases himp : (twoOptSweep d b).2 = true
    · exfalso
      have := twoOptMeasure_lt d (twoOptSweep_spec d b).1
        ((twoOptSweep_spec d b).2.2 himp)
      omega
    · simp only [himp, dite_false]
      exact ⟨(twoOptSweep_spec d b).1, (twoOptSweep_spec d b).2.1⟩
  | succ n ih =>
    intro b hb
    rw [twoOptLoop]
    by_cases himp : (twoOptSweep d b).2 = true
    · simp only [himp, dite_true]
      have hlt := twoOptMeasure_lt d (twoOptSweep_spec d b).1
        ((twoOptSweep_spec d b).2.2 himp)
      have := ih (twoOptSweep d b).1 (by omega)
      exact ⟨this.1.trans (twoOptSweep_spec d b).1,
        le_trans this.2 (twoOptSweep_spec d b).2.1⟩
    · simp only [himp, dite_false]
      exact ⟨(twoOptSweep_spec d b).1, (twoOptSweep_spec d b).2.1⟩

lemma twoOptLoop_perm (d : List NodeId → WithTop ℚ) (b : List NodeId) :
    (twoOptLoop d b).Perm b :=
  (twoOptLoop_spec d (twoOptMeasure d b) b (le_refl _)).1

lemma twoOptLoop_le (d : List NodeId → WithTop ℚ) (b : List NodeId) :
    d (twoOptLoop d b) ≤ d b :=
  (twoOptLoop_spec d (twoOptMeasure d b) b (le_refl _)).2

lemma optimize_path_order_structure (p : PricingProblem) (w : NodeId)
    (tail : List NodeId) (ht : tail ≠ []) :
    ∃ cs, optimize_path_order p (w :: (tail ++ [w])) = w :: (cs ++ [w]) ∧
      cs.Perm tail := by
  unfold optimize_path_order
  have hlen : (w :: (tail ++ [w])).length = tail.length + 2 := by
    simp
  have hgt : ¬ (w :: (tail ++ [w])).length ≤ 2 := by
    rw [hlen]
    have : tail.length ≠ 0 := fun h => ht (List.length_eq_zero.mp h)
    omega
  rw [if_neg hgt]
  have hdrop : ((w :: (tail ++ [w])).drop 1).take
      ((w :: (tail ++ [w])).length - 2) = tail := by
    rw [hlen]
    simp only [List.drop_succ_cons, List.drop_zero]
    have : tail.length + 2 - 2 = tail.length := by omega
    rw [this, List.take_left]
  have hhead : (w :: (tail ++ [w])).headD (NodeId.wh 0) = w := rfl
  have hlast : ((w :: (tail ++ [w])).getLast?).getD (NodeId.wh 0) = w := by
    rw [← List.cons_append, List.getLast?_concat]
    rfl
  rw [hdrop, hhead, hlast]
  exact ⟨_, rfl, twoOptLoop_perm _ tail⟩

/-- Invariant of every label on the frontier of one warehouse session:
the path starts at the session warehouse, visits pairwise distinct
customers only, respects the stop budget, and the scalar fields are the
time simulation and demand sum of the path. -/
structure LabelInv (p : PricingProblem) (start_wh : NodeId) (dep : Int)
    (l : Label) : Prop where
  shape : ∃ tail, l.path = start_wh :: tail ∧
    (∀ n ∈ tail, n.isCustomer = true) ∧ tail.Nodup
  stops : customerCount l.path ≤ p.max_stops
  time_eq : simulate p dep l.path = some l.time
  cap_eq : l.cap = demandSum p l.path

/-- The closure shape demanded of every reported path: same warehouse at
both ends, a nonempty duplicate-free customer interior, length at most
`max_stops + 2`. -/
def ClosedStructure (p : PricingProblem) (path : List NodeId) : Prop :=
  ∃ w cs, path = w :: (cs ++ [w]) ∧ w.isWarehouse = true ∧ cs ≠ [] ∧
    (∀ n ∈ cs, n.isCustomer = true) ∧ cs.Nodup ∧
    path.length ≤ p.max_stops + 2

/-- Invariant of the best-candidate record. -/
structure BestInv (p : PricingProblem) (dep : Int)
    (best : Option PathResult) (bestRC : ℚ) : Prop where
  rc_nonpos : bestRC ≤ 0
  result : ∀ r, best = some r →
    r.reduced_cost = bestRC ∧ bestRC < 0 ∧ ClosedStructure p r.path ∧
    r.capacity = demandSum p r.path ∧
    (p.allow_violate_time_window = false →
      (simulate p dep r.path).isSome = true)

/-- Invariant of the whole search state of one warehouse session. -/
structure StateInv (p : PricingProblem) (start_wh : NodeId) (dep : Int)
    (st : SearchState) : Prop where
  queue_inv : ∀ l ∈ st.queue, LabelInv p start_wh dep l
  best_inv : BestInv p dep st.best st.bestRC

lemma processEdge_inv {p : PricingProblem} {start_wh : NodeId} {dep : Int}
    (exec : OraclePayload → Except String ℚ)
    (hw : start_wh.isWarehouse = true) (hwf : GraphWF p) {e : Edge}
    (he : e ∈ p.edges) {l : Label} (hsrc : e.src = lastNode l.path)
    (hl : LabelInv p start_wh dep l) {st : SearchState}
    (hst : StateInv p start_wh dep st) :
    StateInv p start_wh dep (processEdge exec p start_wh dep l st e) := by
  obtain ⟨tail, hpath, htail, hnodup⟩ := hl.shape
  have hcount : customerCount l.path = tail.length := by
    rw [hpath]
    exact customerCount_shape hw htail
  have hpathne : l.path ≠ [] := by rw [hpath]; simp
  unfold processEdge
  by_cases h1 : e.dst.isWarehouse = true ∧ e.dst ≠ start_wh
  · rw [if_pos h1]; exact hst
  rw [if_neg h1]
  by_cases h2 : e.dst.isCustomer = true ∧
      (p.max_stops ≤ customerCount l.path ∨ e.dst ∈ l.path)
  · rw [if_pos h2]; exact hst
  rw [if_neg h2]
  cases hfe : feasibleExtend p l e with
  | none => exact hst
  | some tc =>
    obtain ⟨t', c'⟩ := tc
    dsimp only
    by_cases h3 : e.dst = start_wh ∧ 1 ≤ customerCount l.path
    · rw [if_pos h3]
      by_cases h4 : l.cost + e.data.reduced_cost < st.bestRC
      · rw [if_pos h4]
        cases hor : calculate_with_executable exec p
            (closureCandidate p (l.path ++ [e.dst])) dep with
        | error msg => exact hst
        | ok total =>
          have htne : tail ≠ [] := by
            intro hnil
            rw [hcount, hnil] at h3
            simp at h3
          have hstops : tail.length ≤ p.max_stops := hcount ▸ hl.stops
          have hnewpath : l.path ++ [e.dst] =
              start_wh :: (tail ++ [start_wh]) := by
            rw [hpath, h3.1]
            rfl
          obtain ⟨i, hdsti⟩ : ∃ i, e.dst = NodeId.wh i := by
            rw [h3.1]
            exact exists_wh_of_isWarehouse hw
          have hfe' := (feasibleExtend_wh (p := p) (l := l) hdsti).symm.trans hfe
          have hc' : c' = l.cap :=
            (congrArg Prod.snd (Option.some.inj hfe')).symm
          have hwh_dst : e.dst.isCustomer = false := by
            rw [hdsti]
            rfl
          have hd1 : demandSum p (l.path ++ [e.dst]) = demandSum p l.path := by
            rw [demandSum_append, hwh_dst]
            simp
          have hclosed : ClosedStructure p
              (closureCandidate p (l.path ++ [e.dst])) := by
            unfold closureCandidate
            by_cases hflag : p.allow_violate_time_window = true
            · rw [if_pos hflag, hnewpath]
              obtain ⟨cs, hopt, hperm⟩ :=
                optimize_path_order_structure p start_wh tail htne
              rw [hopt]
              refine ⟨start_wh, cs, rfl, hw, ?_, ?_, ?_, ?_⟩
              · intro hnil
                rw [hnil] at hperm
                exact htne (List.Perm.eq_nil hperm.symm)
              · intro n hn
                exact htail n (hperm.mem_iff.mp hn)
              · exact hperm.nodup_iff.mpr hnodup
              · have : cs.length = tail.length := hperm.length_eq
                simp only [List.length_cons, List.length_append,
                  List.length_singleton, List.length_nil]
                omega
            · rw [if_neg hflag, hnewpath]
              refine ⟨start_wh, tail, rfl, hw, htne, htail, hnodup, ?_⟩
              simp only [List.length_cons, List.length_append,
                List.length_singleton, List.length_nil]
              omega
          have hcap : c' =
              demandSum p (closureCandidate p (l.path ++ [e.dst])) := by
            rw [hc', hl.cap_eq]
            unfold closureCandidate
            by_cases hflag : p.allow_violate_time_window = true
            · rw [if_pos hflag, hnewpath]
              obtain ⟨cs, hopt, hperm⟩ :=
                optimize_path_order_structure p start_wh tail htne
              rw [hopt]
              have hperm2 : (start_wh :: (cs ++ [start_wh])).Perm
                  (start_wh :: (tail ++ [start_wh])) :=
                List.Perm.cons start_wh (hperm.append_right [start_wh])
              rw [demandSum_perm p hperm2, ← hnewpath, hd1]
            · rw [if_neg hflag, hd1]
          have htw : p.allow_violate_time_window = false →
              (simulate p dep
                (closureCandidate p (l.path ++ [e.dst]))).isSome = true := by
            intro hflag
            unfold closureCandidate
            rw [hflag]
            simp only [Bool.false_eq_true, if_false]
            rw [simulate_append p e.dst l.path dep hpathne, hl.time_eq]
            simp only [Option.some_bind]
            rw [← hsrc, simStep_of_feasibleExtend hwf he hfe]
            rfl
          constructor
          · intro l2 hl2
            exact hst.queue_inv l2 hl2
          · constructor
            · exact le_of_lt (lt_of_lt_of_le h4 hst.best_inv.rc_nonpos)
            · intro r hr
              have hxr := Option.some.inj hr
              subst hxr
              exact ⟨rfl, lt_of_lt_of_le h4 hst.best_inv.rc_nonpos,
                hclosed, hcap, htw⟩
      · rw [if_neg h4]; exact hst
    · rw [if_neg h3]
      by_cases h5 : is_dominated st.labels e.dst
          (l.cost + e.data.reduced_cost) t' c' = true
      · rw [if_pos h5]; exact hst
      · rw [if_neg h5]
        have hdstc : e.dst.isCustomer = true := by
          by_contra hnc
          rw [Bool.not_eq_true, isCustomer_eq_false_iff] at hnc
          have hdst_eq : e.dst = start_wh := by
            by_contra hne
            exact h1 ⟨hnc, hne⟩
          have hc0 : ¬ 1 ≤ customerCount l.path :=
            fun hcnt => h3 ⟨hdst_eq, hcnt⟩
          have htails : tail = [] := by
            rw [hcount] at hc0
            exact List.length_eq_zero.mp (by omega)
          have hlast : lastNode l.path = start_wh := by
            rw [hpath, htails]
            rfl
          have hsrcw : e.src.isWarehouse = true := by
            rw [hsrc, hlast]
            exact hw
          have hcust := hwf.1 e he hsrcw
          cases hd : e.dst <;> rw [hd] at hnc hcust <;>
            simp [NodeId.isCustomer, NodeId.isWarehouse] at hnc hcust
        have hnotmem : e.dst ∉ l.path := fun hmem => h2 ⟨hdstc, Or.inr hmem⟩
        have hstoplt : customerCount l.path < p.max_stops := by
          by_contra hge
          exact h2 ⟨hdstc, Or.inl (by omega)⟩
        constructor
        · intro l2 hl2
          simp only [List.mem_append, List.mem_singleton] at hl2
          cases hl2 with
          | inl hmem => exact hst.queue_inv l2 hmem
          | inr hnew =>
            subst hnew
            constructor
            · refine ⟨tail ++ [e.dst], by rw [hpath]; rfl, ?_, ?_⟩
              · intro n hn
                rw [List.mem_append, List.mem_singleton] at hn
                cases hn with
                | inl h => exact htail n h
                | inr h => rw [h]; exact hdstc
              · refine List.Nodup.append hnodup (List.nodup_singleton _) ?_
                intro a ha hb
                rw [List.mem_singleton] at hb
                subst hb
                exact hnotmem (by rw [hpath]; exact List.mem_cons_of_mem _ ha)
            · show customerCount (l.path ++ [e.dst]) ≤ p.max_stops
              rw [customerCount_append, hdstc]
              simp only [if_true]
              omega
            · show simulate p dep (l.path ++ [e.dst]) = some t'
              rw [simulate_append p e.dst l.path dep hpathne, hl.time_eq]
              simp only [Option.some_bind]
              rw [← hsrc]
              exact simStep_of_feasibleExtend hwf he hfe
            · show c' = demandSum p (l.path ++ [e.dst])
              obtain ⟨j, hj⟩ : ∃ j, e.dst = NodeId.cust j := by
                cases hd : e.dst with
                | wh i => rw [hd] at hdstc; simp [NodeId.isCustomer] at hdstc
                | cust j => exact ⟨j, rfl⟩
              rw [demandSum_append, hdstc]
              simp only [if_true]
              rw [feasibleExtend_cust_cap hj hfe, hl.cap_eq]
        · exact hst.best_inv

lemma foldl_processEdge_inv {p : PricingProblem} {start_wh : NodeId}
    {dep : Int} (exec : OraclePayload → Except String ℚ)
    (hw : start_wh.isWarehouse = true) (hwf : GraphWF p) {l : Label}
    (hl : LabelInv p start_wh dep l) :
    ∀ (es : List Edge) (st : SearchState),
      (∀ e ∈ es, e ∈ p.edges ∧ e.src = lastNode l.path) →
      StateInv p start_wh dep st →
      StateInv p start_wh dep
        (es.foldl (processEdge exec p start_wh dep l) st) := by
  intro es
  induction es with
  | nil => intro st _ hst; exact hst
  | cons e rest ih =>
    intro st hes hst
    simp only [List.foldl_cons]
    exact ih _ (fun x hx => hes x (List.mem_cons_of_mem _ hx))
      (processEdge_inv exec hw hwf (hes e (by simp)).1 (hes e (by simp)).2
        hl hst)

lemma runQueue_inv {p : PricingProblem} {start_wh : NodeId} {dep : Int}
    (exec : OraclePayload → Except String ℚ)
    (hw : start_wh.isWarehouse = true) (hwf : GraphWF p) :
    ∀ (fuel : Nat) (st : SearchState), StateInv p start_wh dep st →
      StateInv p start_wh dep (runQueue exec p start_wh dep fuel st) := by
  intro fuel
  induction fuel with
  | zero => intro st hst; exact hst
  | succ fuel ih =>
    intro st hst
    rw [runQueue]
    cases hq : st.queue with
    | nil => exact hst
    | cons l rest =>
      have hl := hst.queue_inv l (by rw [hq]; simp)
      have hst1 : StateInv p start_wh dep { st with queue := rest } :=
        ⟨fun l2 hl2 => hst.queue_inv l2
          (by rw [hq]; exact List.mem_cons_of_mem _ hl2), hst.best_inv⟩
      exact ih _ (foldl_processEdge_inv exec hw hwf hl _ _
        (fun e he => outEdges_mem he) hst1)

lemma initState_inv {p : PricingProblem} {w : NodeId} {dep : Int}
    (hw : w.isWarehouse = true) {best : Option PathResult} {bestRC : ℚ}
    (hb : BestInv p dep best bestRC) :
    StateInv p w dep (initState w dep best bestRC) := by
  constructor
  · intro l hl
    simp only [initState, List.mem_singleton] at hl
    subst hl
    constructor
    · exact ⟨[], rfl, by simp, List.nodup_nil⟩
    · show customerCount [w] ≤ p.max_stops
      have h0 : customerCount [w] = 0 := by
        unfold customerCount
        simp [(isCustomer_eq_false_iff w).mpr hw]
      omega
    · rfl
    · show (0 : ℚ) = demandSum p [w]
      unfold demandSum
      simp [(isCustomer_eq_false_iff w).mpr hw]
  · exact hb

lemma runWarehouses_inv {p : PricingProblem} {parse : String → Option Int}
    {exec : OraclePayload → Except String ℚ} {fuel : Nat} {dep : Int}
    (hwf : GraphWF p) (hdep : parse (departureString p) = some dep) :
    ∀ (ws : List NodeId) (acc : Option PathResult × ℚ),
      (∀ w ∈ ws, w.isWarehouse = true) →
      BestInv p dep acc.1 acc.2 →
      ∀ res, runWarehouses parse exec fuel p ws acc = .ok res →
        BestInv p dep res.1 res.2 := by
  intro ws
  induction ws with
  | nil =>
    intro acc _ hb res hres
    rw [runWarehouses] at hres
    have := Except.ok.inj hres
    subst this
    exact hb
  | cons w ws2 ih =>
    intro acc hws hb res hres
    rw [runWarehouses, hdep] at hres
    have hw := hws w (by simp)
    have hst := runQueue_inv exec hw hwf fuel _ (initState_inv hw hb)
    exact ih _ (fun x hx => hws x (List.mem_cons_of_mem _ hx))
      hst.best_inv res hres

lemma runWarehouses_none {p : PricingProblem} {parse : String → Option Int}
    {exec : OraclePayload → Except String ℚ} {fuel : Nat}
    (hnone : parse (departureString p) = none) :
    ∀ (ws : List NodeId) (acc : Option PathResult × ℚ) res,
      runWarehouses parse exec fuel p ws acc = .ok res → res = acc := by
  intro ws
  cases ws with
  | nil =>
    intro acc res h
    rw [runWarehouses] at h
    exact (Except.ok.inj h).symm
  | cons w ws2 =>
    intro acc res h
    rw [runWarehouses, hnone] at h
    exact Except.noConfusion h

lemma find_some_props {p : PricingProblem} {parse : String → Option Int}
    {exec : OraclePayload → Except String ℚ} {fuel : Nat} {r : PathResult}
    (hwf : GraphWF p)
    (hws : ∀ w ∈ p.warehouses.map Prod.fst, w.isWarehouse = true)
    (h : find_negative_path parse exec fuel p = .ok (some r)) :
    r.reduced_cost < 0 ∧ ClosedStructure p r.path ∧
    r.capacity = demandSum p r.path ∧
    (∀ dep, parse (departureString p) = some dep →
      p.allow_violate_time_window = false →
        (simulate p dep r.path).isSome = true) := by
  unfold find_negative_path at h
  cases hrun : runWarehouses parse exec fuel p
      (p.warehouses.map Prod.fst) (none, 0) with
  | error msg => rw [hrun] at h; exact Except.noConfusion h
  | ok res =>
    rw [hrun] at h
    simp only [Except.map] at h
    have hres1 : res.1 = some r := Except.ok.inj h
    cases hp : parse (departureString p) with
    | none =>
      have hacc := runWarehouses_none hp _ _ _ hrun
      rw [hacc] at hres1
      exact absurd hres1 (by simp)
    | some dep =>
      have hbinit : BestInv p dep (none : Option PathResult) 0 :=
        ⟨le_refl 0, fun r2 hr2 => Option.noConfusion hr2⟩
      have hb := runWarehouses_inv hwf hp _ _ hws hbinit res hrun
      obtain ⟨hrc, hneg, hcs, hcap, htw⟩ := hb.result r hres1
      refine ⟨by rw [hrc]; exact hneg, hcs, hcap, ?_⟩
      intro dep2 hdep2
      have := Option.some.inj hdep2
      subst this
      exact htw

/-- Negativity invariant of the best record alone (needs no graph
well-formedness). -/
def NegInv (best : Option PathResult) (bestRC : ℚ) : Prop :=
  bestRC ≤ 0 ∧ ∀ r, best = some r → r.reduced_cost = bestRC ∧ bestRC < 0

lemma processEdge_neg (exec : OraclePayload → Except String ℚ)
    (p : PricingProblem) (start_wh : NodeId) (dep : Int) (l : Label)
    (st : SearchState) (e : Edge) (hneg : NegInv st.best st.bestRC) :
    NegInv (processEdge exec p start_wh dep l st e).best
      (processEdge exec p start_wh dep l st e).bestRC := by
  unfold processEdge
  by_cases h1 : e.dst.isWarehouse = true ∧ e.dst ≠ start_wh
  · rw [if_pos h1]; exact hneg
  rw [if_neg h1]
  by_cases h2 : e.dst.isCustomer = true ∧
      (p.max_stops ≤ customerCount l.path ∨ e.dst ∈ l.path)
  · rw [if_pos h2]; exact hneg
  rw [if_neg h2]
  cases hfe : feasibleExtend p l e with
  | none => exact hneg
  | some tc =>
    obtain ⟨t', c'⟩ := tc
    dsimp only
    by_cases h3 : e.dst = start_wh ∧ 1 ≤ customerCount l.path
    · rw [if_pos h3]
      by_cases h4 : l.cost + e.data.reduced_cost < st.bestRC
      · rw [if_pos h4]
        cases hor : calculate_with_executable exec p
            (closureCandidate p (l.path ++ [e.dst])) dep with
        | error msg => exact hneg
        | ok total =>
          refine ⟨le_of_lt (lt_of_lt_of_le h4 hneg.1), ?_⟩
          intro r hr
          have := Option.some.inj hr
          subst this
          exact ⟨rfl, lt_of_lt_of_le h4 hneg.1⟩
      · rw [if_neg h4]; exact hneg
    · rw [if_neg h3]
      by_cases h5 : is_dominated st.labels e.dst
          (l.cost + e.data.reduced_cost) t' c' = true
      · rw [if_pos h5]; exact hneg
      · rw [if_neg h5]; exact hneg

lemma runQueue_neg (exec : OraclePayload → Except String ℚ)
    (p : PricingProblem) (start_wh : NodeId) (dep : Int) :
    ∀ (fuel : Nat) (st : SearchState), NegInv st.best st.bestRC →
      NegInv (runQueue exec p start_wh dep fuel st).best
        (runQueue exec p start_wh dep fuel st).bestRC := by
  intro fuel
  induction fuel with
  | zero => intro st hst; exact hst
  | succ fuel ih =>
    intro st hst
    rw [runQueue]
    cases hq : st.queue with
    | nil => exact hst
    | cons l rest =>
      have hfold : ∀ (es : List Edge) (st2 : SearchState),
          NegInv st2.best st2.bestRC →
          NegInv ((es.foldl (processEdge exec p start_wh dep l) st2).best)
            ((es.foldl (processEdge exec p start_wh dep l) st2).bestRC) := by
        intro es
        induction es with
        | nil => intro st2 h2; exact h2
        | cons e rest2 ih2 =>
          intro st2 h2
          simp only [List.foldl_cons]
          exact ih2 _ (processEdge_neg exec p start_wh dep l st2 e h2)
      exact ih _ (hfold _ { st with queue := rest } hst)

lemma runWarehouses_neg {p : PricingProblem} {parse : String → Option Int}
    {exec : OraclePayload → Except String ℚ} {fuel : Nat} :
    ∀ (ws : List NodeId) (acc : Option PathResult × ℚ),
      NegInv acc.1 acc.2 →
      ∀ res, runWarehouses parse exec fuel p ws acc = .ok res →
        NegInv res.1 res.2 := by
  intro ws
  induction ws with
  | nil =>
    intro acc hb res hres
    rw [runWarehouses] at hres
    have := Except.ok.inj hres
    subst this
    exact hb
  | cons w ws2 ih =>
    intro acc hb res hres
    rw [runWarehouses] at hres
    cases hp : parse (departureString p) with
    | none => rw [hp] at hres; exact Except.noConfusion hres
    | some dep =>
      rw [hp] at hres
      exact ih _ (runQueue_neg exec p w dep fuel _ hb) res hres

lemma find_neg {parse : String → Option Int}
    {exec : OraclePayload → Except String ℚ} {fuel : Nat}
    {p : PricingProblem} {r : PathResult}
    (h : find_negative_path parse exec fuel p = .ok (some r)) :
    r.reduced_cost < 0 := by
  unfold find_negative_path at h
  cases hrun : runWarehouses parse exec fuel p
      (p.warehouses.map Prod.fst) (none, 0) with
  | error msg => rw [hrun] at h; exact Except.noConfusion h
  | ok res =>
    rw [hrun] at h
    simp only [Except.map] at h
    have hres1 : res.1 = some r := Except.ok.inj h
    have hb := runWarehouses_neg _ _
      ⟨le_refl 0, fun r2 hr2 => Option.noConfusion hr2⟩ res hrun
    have := hb.2 r hres1
    rw [this.1]
    exact this.2

/-! ### Concrete example problems

Both examples instantiate the haversine oracle with simple rational
distance functions (any deterministic `hav` is admissible; the search never
inspects coordinates beyond the distances derived from them). -/

/-- Distance oracle for `exampleProblemA`: absolute latitude difference. -/
def havAbs : ℚ × ℚ → ℚ × ℚ → ℚ := fun a b => |a.1 - b.1|

/-- One warehouse at latitude 0, customers `C_1` (demand 0, dual 100, wide
window) at latitude 3 and `C_2` (demand 1, window opening at minute 100) at
latitude 4; time-window violations not allowed. -/
def exampleProblemA : PricingProblem :=
  PricingProblem.new havAbs
    [⟨1, 3, 0, 0, 0, 1000000⟩, ⟨2, 4, 0, 1, 100, 1000000⟩]
    [⟨0, 0, 0⟩]
    (fun i => if i = 1 then 100 else 0)
    2 10 1 60 0 "2024-01-01" 8 false ⟨0, 0, 0⟩

/-- Symmetric distance table on latitudes 0..3 used by `exampleProblemB`. -/
def havTable (x y : ℚ) : ℚ :=
  let a := min x y
  let b := max x y
  if a = 0 ∧ b = 1 then 1
  else if a = 0 ∧ b = 2 then 5
  else if a = 0 ∧ b = 3 then 5
  else if a = 1 ∧ b = 2 then 4
  else if a = 1 ∧ b = 3 then 6
  else if a = 2 ∧ b = 3 then 4
  else 0

/-- Distance oracle for `exampleProblemB`. -/
def havB : ℚ × ℚ → ℚ × ℚ → ℚ := fun a b => havTable a.1 b.1

/-- One warehouse, three unit-demand customers with dual 100 each;
`C_2`'s window forces it to be served first, so the best discovered
closure is geometrically suboptimal and 2-opt (enabled, since
`allow_violate_time_window` is true) reorders it. -/
def exampleProblemB : PricingProblem :=
  PricingProblem.new havB
    [⟨1, 1, 0, 1, 0, 1000⟩, ⟨2, 2, 0, 1, 0, 15⟩, ⟨3, 3, 0, 1, 0, 1000⟩]
    [⟨0, 0, 0⟩]
    (fun _ => 100)
    3 10 1 60 10 "2024-01-01" 8 true ⟨0, 0, 0⟩

/-- A deterministic trip-cost oracle that always succeeds. -/
def oracleOk : OraclePayload → Except String ℚ := fun _ => .ok 7

/-- A trip-cost oracle whose every call fails. -/
def oracleFail : OraclePayload → Except String ℚ := fun _ => .error "calc fail"

/-- An RFC3339 parser stub mapping every string to minute 0. -/
def parseZero : String → Option Int := fun _ => some 0

/-- The result of the solver on `exampleProblemA` (checked by `rfl`). -/
def exampleResultA : PathResult :=
  ⟨[NodeId.wh 0, NodeId.cust 1, NodeId.wh 0], -94, 7, 0⟩

/-- The result of the solver on `exampleProblemB` (checked by `rfl`): the
emitted path is the 2-opt reordering of the discovered closure
`W, C_2, C_3, C_1, W`, while `reduced_cost = -284` was accumulated along
the discovered ordering. -/
def exampleResultB : PathResult :=
  ⟨[NodeId.wh 0, NodeId.cust 3, NodeId.cust 2, NodeId.cust 1, NodeId.wh 0],
    -284, 7, 3⟩

/-! ### Claim theorems -/

/-- C1: determinism.  Two invocations of `find_negative_path` on the
problem constructed by `PricingProblem::new` from the same input envelope,
with the same (deterministic) trip-cost oracle and date parser, return the
same output.  In this embedding the solver is a pure function and the
per-instance `HashMap` iteration orders are part of the constructed
problem, so the two runs agree definitionally; this is the precise sense
in which iteration over `HashMap` key order does not break two-run
equality over the same constructed `PricingProblem`. -/
theorem spec_C1 (parse : String → Option Int)
    (exec : OraclePayload → Except String ℚ) (fuel : Nat)
    (hav : ℚ × ℚ → ℚ × ℚ → ℚ) (customers : List Customer)
    (warehouses : List Warehouse) (dual : Int → ℚ) (max_stops : Nat)
    (max_capacity cost_per_km speed_kmh : ℚ) (service_time : Int)
    (planning_date : String) (departure_hour : Nat) (allow : Bool)
    (penalties : PenaltyParams) :
    find_negative_path parse exec fuel
      (PricingProblem.new hav customers warehouses dual max_stops
        max_capacity cost_per_km speed_kmh service_time planning_date
        departure_hour allow penalties) =
    find_negative_path parse exec fuel
      (PricingProblem.new hav customers warehouses dual max_stops
        max_capacity cost_per_km speed_kmh service_time planning_date
        departure_hour allow penalties) := rfl

/-- C2 (counterexample): after one warehouse session on
`exampleProblemA`, node `C_2` retains two labels; the second (arriving
later, via `C_1`) weakly dominates the first on (cost, time, capacity),
yet the first was retained (and extended) rather than pruned — `is_dominated`
only filters new labels against old ones and never removes a retained
label.  This refutes the claim that of any two weakly comparable labels at
a node the dominated one was pruned. -/
theorem spec_C2_counterexample :
    (runQueue oracleFail exampleProblemA (NodeId.wh 0) 0 20
        (initState (NodeId.wh 0) 0 none 0)).labels (NodeId.cust 2) =
      [⟨4, 100, 1, [NodeId.wh 0, NodeId.cust 2]⟩,
       ⟨-96, 100, 1, [NodeId.wh 0, NodeId.cust 1, NodeId.cust 2]⟩] ∧
    ((-96 : ℚ) ≤ 4 ∧ (100 : Int) ≤ 100 ∧ (1 : ℚ) ≤ 1) ∧
    (⟨4, 100, 1, [NodeId.wh 0, NodeId.cust 2]⟩ : Label) ≠
      ⟨-96, 100, 1, [NodeId.wh 0, NodeId.cust 1, NodeId.cust 2]⟩ := by
  refine ⟨by with_unfolding_all decide, by with_unfolding_all decide,
    by with_unfolding_all decide⟩

/-- C2 (amended): the dominance rule is one-directional.  Whenever the
edge-processing step retains a new label at a node (equivalently, changes
the node's label list), the retained label was, at the moment of
insertion, not weakly dominated by any label already retained there, and
it is simultaneously enqueued.  Labels already retained are never removed,
so a retained label may later be weakly dominated by a newer retained
label (as the counterexample exhibits). -/
theorem spec_C2_amended (exec : OraclePayload → Except String ℚ)
    (p : PricingProblem) (start_wh : NodeId) (dep : Int) (l : Label)
    (st : SearchState) (e : Edge) (v : NodeId)
    (hchanged : (processEdge exec p start_wh dep l st e).labels v ≠
      st.labels v) :
    ∃ nl, (processEdge exec p start_wh dep l st e).labels v =
        st.labels v ++ [nl] ∧
      (processEdge exec p start_wh dep l st e).queue = st.queue ++ [nl] ∧
      is_dominated st.labels v nl.cost nl.time nl.cap = false ∧
      v = e.dst := by
  revert hchanged
  unfold processEdge
  by_cases h1 : e.dst.isWarehouse = true ∧ e.dst ≠ start_wh
  · rw [if_pos h1]; intro hch; exact absurd rfl hch
  rw [if_neg h1]
  by_cases h2 : e.dst.isCustomer = true ∧
      (p.max_stops ≤ customerCount l.path ∨ e.dst ∈ l.path)
  · rw [if_pos h2]; intro hch; exact absurd rfl hch
  rw [if_neg h2]
  cases hfe : feasibleExtend p l e with
  | none => intro hch; exact absurd rfl hch
  | some tc =>
    obtain ⟨t', c'⟩ := tc
    dsimp only
    by_cases h3 : e.dst = start_wh ∧ 1 ≤ customerCount l.path
    · rw [if_pos h3]
      by_cases h4 : l.cost + e.data.reduced_cost < st.bestRC
      · rw [if_pos h4]
        cases hor : calculate_with_executable exec p
            (closureCandidate p (l.path ++ [e.dst])) dep with
        | error msg => intro hch; exact absurd rfl hch
        | ok total => intro hch; exact absurd rfl hch
      · rw [if_neg h4]; intro hch; exact absurd rfl hch
    · rw [if_neg h3]
      by_cases h5 : is_dominated st.labels e.dst
          (l.cost + e.data.reduced_cost) t' c' = true
      · rw [if_pos h5]; intro hch; exact absurd rfl hch
      · rw [if_neg h5]
        intro hch
        by_cases hv : v = e.dst
        · refine ⟨⟨l.cost + e.data.reduced_cost, t', c', l.path ++ [e.dst]⟩,
            ?_, rfl, ?_, hv⟩
          · show (if v = e.dst then
                st.labels v ++ [⟨l.cost + e.data.reduced_cost, t', c',
                  l.path ++ [e.dst]⟩]
              else st.labels v) = _
            rw [if_pos hv, hv]
          · rw [hv]
            exact Bool.eq_false_iff.mpr h5
        · exfalso
          apply hch
          show (if v = e.dst then st.labels v ++ _ else st.labels v) =
            st.labels v
          rw [if_neg hv]

/-- Witness for the amended C2 at a concrete retained label: extending the
initial label of `exampleProblemA` along the `W_0 → C_2` arc retains and
enqueues a label that was not dominated on arrival. -/
theorem spec_C2_amended_witness :
    ∃ nl, (processEdge oracleFail exampleProblemA (NodeId.wh 0) 0
        (initLabel (NodeId.wh 0) 0) (initState (NodeId.wh 0) 0 none 0)
        ⟨NodeId.wh 0, NodeId.cust 2, ⟨4, 4, 4⟩⟩).labels (NodeId.cust 2) =
        (initState (NodeId.wh 0) 0 none 0).labels (NodeId.cust 2) ++ [nl] ∧
      (processEdge oracleFail exampleProblemA (NodeId.wh 0) 0
        (initLabel (NodeId.wh 0) 0) (initState (NodeId.wh 0) 0 none 0)
        ⟨NodeId.wh 0, NodeId.cust 2, ⟨4, 4, 4⟩⟩).queue =
        (initState (NodeId.wh 0) 0 none 0).queue ++ [nl] ∧
      is_dominated (initState (NodeId.wh 0) 0 none 0).labels
        (NodeId.cust 2) nl.cost nl.time nl.cap = false ∧
      (NodeId.cust 2 : NodeId) =
        (⟨NodeId.wh 0, NodeId.cust 2, ⟨4, 4, 4⟩⟩ : Edge).dst :=
  spec_C2_amended oracleFail exampleProblemA (NodeId.wh 0) 0
    (initLabel (NodeId.wh 0) 0) (initState (NodeId.wh 0) 0 none 0)
    ⟨NodeId.wh 0, NodeId.cust 2, ⟨4, 4, 4⟩⟩ (NodeId.cust 2)
    (by with_unfolding_all decide)

/-- C3 (counterexample): with one warehouse present and an unparseable
departure string, `find_negative_path` aborts with the
`"Invalid planning date format"` panic (modelled as `Except.error`) —
the malformed planning date IS fatal inside the core search, refuting the
claim that such errors surface only at the driver boundary. -/
theorem spec_C3_counterexample :
    find_negative_path (fun _ => none) oracleFail 5 exampleProblemA =
      .error "Invalid planning date format" := rfl

/-- C3 (amended): a malformed planning date (one the RFC3339 parser
rejects) causes `find_negative_path` to panic with
`"Invalid planning date format"` whenever at least one warehouse exists;
the failure happens inside the core search, not at the driver boundary
(`main.rs` never validates `planning_date`). -/
theorem spec_C3_amended (parse : String → Option Int)
    (exec : OraclePayload → Except String ℚ) (fuel : Nat)
    (p : PricingProblem) (hne : p.warehouses ≠ [])
    (hparse : parse (departureString p) = none) :
    find_negative_path parse exec fuel p =
      .error "Invalid planning date format" := by
  unfold find_negative_path
  cases hws : p.warehouses with
  | nil => exact absurd hws hne
  | cons w rest =>
    simp only [List.map_cons]
    rw [runWarehouses, hparse]
    rfl

/-- Witness for the amended C3 at a concrete input. -/
theorem spec_C3_amended_witness :
    find_negative_path (fun _ => none) oracleOk 5 exampleProblemA =
      .error "Invalid planning date format" :=
  spec_C3_amended (fun _ => none) oracleOk 5 exampleProblemA
    (by with_unfolding_all decide) rfl

/-- C4 (counterexample): `exampleProblemB` has
`allow_violate_time_window = true`, yet the payload written for the oracle
carries `allow_violate_time_window = false` — the source hard-codes the
field (`pricing.rs` line 99) instead of forwarding the envelope flag. -/
theorem spec_C4_counterexample :
    exampleProblemB.allow_violate_time_window = true ∧
    (mkOraclePayload exampleProblemB
        [NodeId.wh 0, NodeId.cust 3, NodeId.cust 2, NodeId.cust 1,
          NodeId.wh 0] 0).allow_violate_time_window = false :=
  ⟨rfl, rfl⟩

/-- C4 (amended): the oracle payload contains all the advertised keys —
`locations`, `path`, `departure`, `cost_per_km`, `speed_kmh`,
`service_minutes`, `max_capacity`, `max_stops`, `penalties` — forwarded
from the problem, but `allow_violate_time_window` is always `false`,
regardless of the input envelope's flag. -/
theorem spec_C4_amended (p : PricingProblem) (path : List NodeId)
    (departure : Int) :
    (mkOraclePayload p path departure).locations = p.all_locations ∧
    (mkOraclePayload p path departure).path = path ∧
    (mkOraclePayload p path departure).departure = departure ∧
    (mkOraclePayload p path departure).cost_per_km = p.cost_per_km ∧
    (mkOraclePayload p path departure).speed_kmh = p.speed_kmh ∧
    (mkOraclePayload p path departure).service_minutes = p.service_time ∧
    (mkOraclePayload p path departure).max_capacity = p.max_capacity ∧
    (mkOraclePayload p path departure).max_stops = p.max_stops ∧
    (mkOraclePayload p path departure).penalties = p.penalties ∧
    (mkOraclePayload p path departure).allow_violate_time_window = false :=
  ⟨rfl, rfl, rfl, rfl, rfl, rfl, rfl, rfl, rfl, rfl⟩

/-- C5: a failed oracle call on an improving closure is non-fatal and
leaves the entire search state — in particular `best_path` and
`best_reduced_cost` — exactly as it was; the candidate is dropped and the
loop continues with the unchanged state.  (The `eprintln!` log has no
observable effect on the state.) -/
theorem spec_C5 (exec : OraclePayload → Except String ℚ)
    (p : PricingProblem) (start_wh : NodeId) (dep : Int) (l : Label)
    (st : SearchState) (e : Edge) (msg : String)
    (hw : start_wh.isWarehouse = true) (hdst : e.dst = start_wh)
    (hcnt : 1 ≤ customerCount l.path)
    (himpr : l.cost + e.data.reduced_cost < st.bestRC)
    (hfail : calculate_with_executable exec p
      (closureCandidate p (l.path ++ [e.dst])) dep = .error msg) :
    processEdge exec p start_wh dep l st e = st := by
  unfold processEdge
  rw [if_neg (fun hcon => hcon.2 hdst)]
  rw [if_neg (fun hcon => by
    rw [hdst, (isCustomer_eq_false_iff start_wh).mpr hw] at hcon
    exact Bool.noConfusion hcon.1)]
  obtain ⟨i, hi⟩ := exists_wh_of_isWarehouse hw
  rw [feasibleExtend_wh (hdst.trans hi)]
  dsimp only
  rw [if_pos ⟨hdst, hcnt⟩, if_pos himpr, hfail]

/-- Witness for C5 at a concrete input. -/
theorem spec_C5_witness :
    processEdge oracleFail exampleProblemA (NodeId.wh 0) 0
      ⟨-97, 3, 0, [NodeId.wh 0, NodeId.cust 1]⟩
      (initState (NodeId.wh 0) 0 none 0)
      ⟨NodeId.cust 1, NodeId.wh 0, ⟨3, 3, 3⟩⟩ =
    initState (NodeId.wh 0) 0 none 0 :=
  spec_C5 oracleFail exampleProblemA (NodeId.wh 0) 0
    ⟨-97, 3, 0, [NodeId.wh 0, NodeId.cust 1]⟩
    (initState (NodeId.wh 0) 0 none 0)
    ⟨NodeId.cust 1, NodeId.wh 0, ⟨3, 3, 3⟩⟩ "calc fail"
    rfl rfl (by with_unfolding_all decide) (by with_unfolding_all decide) rfl

/-- C6: every `PathResult` returned by `find_negative_path` (on a graph
with no warehouse→warehouse arcs and no duplicate arcs, as `build_edges`
produces, and with warehouse keys tagging warehouses) has the closure
structure: the path begins and ends with the same warehouse node, its
interior is a nonempty list of pairwise distinct customers, and its length
is at most `max_stops + 2` — whether or not 2-opt reordered the
interior. -/
theorem spec_C6 (parse : String → Option Int)
    (exec : OraclePayload → Except String ℚ) (fuel : Nat)
    (p : PricingProblem) (r : PathResult) (hwf : GraphWF p)
    (hws : ∀ w ∈ p.warehouses.map Prod.fst, w.isWarehouse = true)
    (h : find_negative_path parse exec fuel p = .ok (some r)) :
    ClosedStructure p r.path :=
  (find_some_props hwf hws h).2.1

/-- Witness for C6 on `exampleProblemB`, whose result path was reordered
by 2-opt. -/
theorem spec_C6_witness : ClosedStructure exampleProblemB exampleResultB.path :=
  spec_C6 parseZero oracleOk 30 exampleProblemB exampleResultB
    (by unfold GraphWF; with_unfolding_all decide)
    (by with_unfolding_all decide)
    (by with_unfolding_all rfl)

/-- C7: (a) whenever `find_negative_path` returns `some` result, its
`reduced_cost` is strictly negative — the best record starts at `0.0` and
is replaced only under strict-less comparison, so a `None` result is
returned when no closed route with strictly negative accumulated reduced
cost was recorded; and (b) a closing candidate whose accumulated reduced
cost is not strictly below the current best (in particular, equal to it)
leaves the state — best record included — completely unchanged. -/
theorem spec_C7 :
    (∀ (parse : String → Option Int)
        (exec : OraclePayload → Except String ℚ) (fuel : Nat)
        (p : PricingProblem) (r : PathResult),
      find_negative_path parse exec fuel p = .ok (some r) →
        r.reduced_cost < 0) ∧
    (∀ (exec : OraclePayload → Except String ℚ) (p : PricingProblem)
        (start_wh : NodeId) (dep : Int) (l : Label) (st : SearchState)
        (e : Edge), start_wh.isWarehouse = true → e.dst = start_wh →
        1 ≤ customerCount l.path →
        ¬ (l.cost + e.data.reduced_cost < st.bestRC) →
        processEdge exec p start_wh dep l st e = st) := by
  constructor
  · intro parse exec fuel p r h
    exact find_neg h
  · intro exec p start_wh dep l st e hw hdst hcnt hnlt
    unfold processEdge
    rw [if_neg (fun hcon => hcon.2 hdst)]
    rw [if_neg (fun hcon => by
      rw [hdst, (isCustomer_eq_false_iff start_wh).mpr hw] at hcon
      exact Bool.noConfusion hcon.1)]
    obtain ⟨i, hi⟩ := exists_wh_of_isWarehouse hw
    rw [feasibleExtend_wh (hdst.trans hi)]
    dsimp only
    rw [if_pos ⟨hdst, hcnt⟩, if_neg hnlt]

/-- Witness for C7: the negativity half at the concrete run on
`exampleProblemB`, and the tie half at a closure whose accumulated cost
`-97 + 3 = -94` exactly equals the current best. -/
theorem spec_C7_witness :
    exampleResultB.reduced_cost < 0 ∧
    processEdge oracleOk exampleProblemA (NodeId.wh 0) 0
      ⟨-97, 3, 0, [NodeId.wh 0, NodeId.cust 1]⟩
      ⟨fun _ => [], [], none, -94⟩
      ⟨NodeId.cust 1, NodeId.wh 0, ⟨3, 3, 3⟩⟩ =
    ⟨fun _ => [], [], none, -94⟩ :=
  ⟨spec_C7.1 parseZero oracleOk 30 exampleProblemB exampleResultB
      (by with_unfolding_all rfl),
   spec_C7.2 oracleOk exampleProblemA (NodeId.wh 0) 0
      ⟨-97, 3, 0, [NodeId.wh 0, NodeId.cust 1]⟩
      ⟨fun _ => [], [], none, -94⟩
      ⟨NodeId.cust 1, NodeId.wh 0, ⟨3, 3, 3⟩⟩
      rfl rfl (by with_unfolding_all decide)
      (by with_unfolding_all decide)⟩

/-- C8: when `allow_violate_time_window` is false, every reported path is
time-window feasible: simulating it from the departure instant — adding
each arc's travel time, waiting to `window_start` on early arrival and
spending `service_time` minutes at each customer — succeeds, i.e. every
customer satisfies `arrival ≤ window_end` and
`arrival + service_time ≤ window_end` (`simulate` returns `some`). -/
theorem spec_C8 (parse : String → Option Int)
    (exec : OraclePayload → Except String ℚ) (fuel : Nat)
    (p : PricingProblem) (r : PathResult) (dep : Int) (hwf : GraphWF p)
    (hws : ∀ w ∈ p.warehouses.map Prod.fst, w.isWarehouse = true)
    (hdep : parse (departureString p) = some dep)
    (hflag : p.allow_violate_time_window = false)
    (h : find_negative_path parse exec fuel p = .ok (some r)) :
    (simulate p dep r.path).isSome = true :=
  (find_some_props hwf hws h).2.2.2 dep hdep hflag

/-- Witness for C8 on `exampleProblemA` (violations not allowed there). -/
theorem spec_C8_witness :
    (simulate exampleProblemA 0 exampleResultA.path).isSome = true :=
  spec_C8 parseZero oracleOk 30 exampleProblemA exampleResultA 0
    (by unfold GraphWF; with_unfolding_all decide)
    (by with_unfolding_all decide) rfl
    (by with_unfolding_all rfl) (by with_unfolding_all rfl)

/-- C9: for every path of length at least 3, `optimize_path_order` keeps
the endpoints, permutes the interior, and the refined interior's total
route distance (`calculate_path_distance`, i.e. arc cost divided by
`cost_per_km`) is at most that of the original interior.  Termination of
the 2-opt loop is established by the well-founded definition of
`twoOptLoop` (measure `twoOptMeasure`): the function is total, no fuel is
involved. -/
theorem spec_C9 (p : PricingProblem) (path : List NodeId)
    (hlen : 3 ≤ path.length) :
    ∃ cs, optimize_path_order p path =
        path.headD (NodeId.wh 0) ::
          (cs ++ [(path.getLast?).getD (NodeId.wh 0)]) ∧
      cs.Perm ((path.drop 1).take (path.length - 2)) ∧
      calculate_path_distance p (path.headD (NodeId.wh 0)) cs
          ((path.getLast?).getD (NodeId.wh 0)) ≤
        calculate_path_distance p (path.headD (NodeId.wh 0))
          ((path.drop 1).take (path.length - 2))
          ((path.getLast?).getD (NodeId.wh 0)) := by
  unfold optimize_path_order
  rw [if_neg (by omega)]
  exact ⟨_, rfl, twoOptLoop_perm _ _,
    twoOptLoop_le
      (fun cs => calculate_path_distance p (path.headD (NodeId.wh 0)) cs
        ((path.getLast?).getD (NodeId.wh 0)))
      ((path.drop 1).take (path.length - 2))⟩

/-- The closure discovered by the search on `exampleProblemB` before 2-opt
reordering. -/
def examplePathB : List NodeId :=
  [NodeId.wh 0, NodeId.cust 2, NodeId.cust 3, NodeId.cust 1, NodeId.wh 0]

/-- Witness for C9 at the concrete candidate of `exampleProblemB`. -/
theorem spec_C9_witness :
    ∃ cs, optimize_path_order exampleProblemB examplePathB =
        examplePathB.headD (NodeId.wh 0) ::
          (cs ++ [(examplePathB.getLast?).getD (NodeId.wh 0)]) ∧
      cs.Perm ((examplePathB.drop 1).take (examplePathB.length - 2)) ∧
      calculate_path_distance exampleProblemB
          (examplePathB.headD (NodeId.wh 0)) cs
          ((examplePathB.getLast?).getD (NodeId.wh 0)) ≤
        calculate_path_distance exampleProblemB
          (examplePathB.headD (NodeId.wh 0))
          ((examplePathB.drop 1).take (examplePathB.length - 2))
          ((examplePathB.getLast?).getD (NodeId.wh 0)) :=
  spec_C9 exampleProblemB examplePathB (by decide)

/-- C10: (a) on a successful improving closure the recorded `PathResult`
carries the 2-opt-refined path together with the reduced cost accumulated
along the *original* ordering and the capacity accumulated along the
original labels — nothing is recomputed for the emitted ordering; (b) the
capacity nevertheless equals the demand sum of the emitted path, because
2-opt permutes the customer multiset; and (c) the reported `reduced_cost`
can therefore differ from the summed arc reduced cost of the emitted
`path` field, exhibited end-to-end on `exampleProblemB`
(`-284` reported vs `-286` summed along the emitted path). -/
theorem spec_C10 :
    (∀ (exec : OraclePayload → Except String ℚ) (p : PricingProblem)
        (start_wh : NodeId) (dep : Int) (l : Label) (st : SearchState)
        (e : Edge) (total : ℚ),
      start_wh.isWarehouse = true → e.dst = start_wh →
      1 ≤ customerCount l.path →
      l.cost + e.data.reduced_cost < st.bestRC →
      calculate_with_executable exec p
        (closureCandidate p (l.path ++ [e.dst])) dep = .ok total →
      processEdge exec p start_wh dep l st e =
        { st with
          best := some ⟨closureCandidate p (l.path ++ [e.dst]),
            l.cost + e.data.reduced_cost, total, l.cap⟩
          bestRC := l.cost + e.data.reduced_cost }) ∧
    (∀ (parse : String → Option Int)
        (exec : OraclePayload → Except String ℚ) (fuel : Nat)
        (p : PricingProblem) (r : PathResult), GraphWF p →
      (∀ w ∈ p.warehouses.map Prod.fst, w.isWarehouse = true) →
      find_negative_path parse exec fuel p = .ok (some r) →
      r.capacity = demandSum p r.path) ∧
    (find_negative_path parseZero oracleOk 30 exampleProblemB =
        .ok (some exampleResultB) ∧
      exampleResultB.reduced_cost ≠
        pathReducedCost exampleProblemB exampleResultB.path) := by
  refine ⟨?_, ?_, ?_, ?_⟩
  · intro exec p start_wh dep l st e total hw hdst hcnt himpr hok
    unfold processEdge
    rw [if_neg (fun hcon => hcon.2 hdst)]
    rw [if_neg (fun hcon => by
      rw [hdst, (isCustomer_eq_false_iff start_wh).mpr hw] at hcon
      exact Bool.noConfusion hcon.1)]
    obtain ⟨i, hi⟩ := exists_wh_of_isWarehouse hw
    rw [feasibleExtend_wh (hdst.trans hi)]
    dsimp only
    rw [if_pos ⟨hdst, hcnt⟩, if_pos himpr, hok]
  · intro parse exec fuel p r hwf hws h
    exact (find_some_props hwf hws h).2.2.1
  · with_unfolding_all rfl
  · with_unfolding_all decide

/-- Witness for C10: the recording step at the concrete improving closure
of `exampleProblemB`, and the capacity identity for its emitted result. -/
theorem spec_C10_witness :
    processEdge oracleOk exampleProblemB (NodeId.wh 0) 0
      ⟨-285, 45, 3,
        [NodeId.wh 0, NodeId.cust 2, NodeId.cust 3, NodeId.cust 1]⟩
      (initState (NodeId.wh 0) 0 none 0)
      ⟨NodeId.cust 1, NodeId.wh 0, ⟨1, 1, 1⟩⟩ =
      { initState (NodeId.wh 0) 0 none 0 with
        best := some ⟨closureCandidate exampleProblemB
          ([NodeId.wh 0, NodeId.cust 2, NodeId.cust 3, NodeId.cust 1] ++
            [NodeId.wh 0]), -285 + 1, 7, 3⟩
        bestRC := -285 + 1 } ∧
    exampleResultB.capacity = demandSum exampleProblemB exampleResultB.path :=
  ⟨spec_C10.1 oracleOk exampleProblemB (NodeId.wh 0) 0
      ⟨-285, 45, 3,
        [NodeId.wh 0, NodeId.cust 2, NodeId.cust 3, NodeId.cust 1]⟩
      (initState (NodeId.wh 0) 0 none 0)
      ⟨NodeId.cust 1, NodeId.wh 0, ⟨1, 1, 1⟩⟩ 7
      rfl rfl (by with_unfolding_all decide)
      (by with_unfolding_all decide) rfl,
   spec_C10.2.1 parseZero oracleOk 30 exampleProblemB exampleResultB
      (by unfold GraphWF; with_unfolding_all decide)
      (by with_unfolding_all decide) (by with_unfolding_all rfl)⟩

end VRPPricing
